import Mathlib

/-!
Shallow embedding of the view-state derivation pipeline of the map
application (repository elnukk/map-app).

The core logic lives in `src/src/App.js`; `src/unnamed/part_000` is an
earlier variant of the same component whose filter and search logic is
embedded separately (namespace `Part000`) for the refinement claim.

Modelling conventions:
- A GeoJSON feature is a `Feature`: optional `properties` record with
  optional `name` / `owner` / `date` string fields (a JSON `null` and an
  absent field are both `none`, matching every use through `?.` access),
  plus the bounding box of its geometry (`west`/`east`/`south`/`north`,
  geographic coordinates as integers).  The geometry itself is opaque to
  the core logic: the only things the code derives from it are
  `L.geoJSON(f).getBounds()` (modelled by `boundsOf`) and the
  east-minus-west extent used as a size proxy.
- `new Date(s).getFullYear()` is modelled by an arbitrary parameter
  `getYear : String → Option Int`, where `none` stands for `NaN`
  (unparsable date).  All theorems are proved for every such parser.
- JavaScript string truthiness (`if (owner)`, `dateStr ? … : NaN`,
  `farms.filter((f) => f.name)`): `none` and `some ""` are falsy, every
  other string is truthy (`truthy`).
- `Array.prototype.sort` (stable since ES2019) is modelled by
  `List.mergeSort`; `localeCompare` by the lexicographic order on
  `String`.
- A JavaScript object used as a dictionary (`ownerCounts`) is modelled
  by `OwnerTable`: its value map together with its key enumeration
  order (string keys enumerate in insertion order).
-/

namespace MapApp

/-- The `properties` object of a GeoJSON feature: the three optional
metadata fields the core logic reads. -/
structure Props where
  name : Option String
  owner : Option String
  date : Option String
deriving DecidableEq, Repr

/-- One GeoJSON feature of the store: optional `properties` plus the
bounding box of its (otherwise opaque) polygon geometry. -/
structure Feature where
  properties : Option Props
  west : Int
  east : Int
  south : Int
  north : Int
deriving DecidableEq, Repr

/-- Spatial bounds, as returned by `L.geoJSON(feature).getBounds()`. -/
structure Bounds where
  west : Int
  east : Int
  south : Int
  north : Int
deriving DecidableEq, Repr

/-- Models `L.geoJSON(feature).getBounds()`: the bounding box of the
feature's geometry. -/
def boundsOf (f : Feature) : Bounds :=
  ⟨f.west, f.east, f.south, f.north⟩

/-- Accessor for `feature.properties?.name` (optional chaining: `none` if either
`properties` or `name` is absent/null). -/
def propsName (f : Feature) : Option String :=
  f.properties.bind Props.name

/-- Accessor for `feature.properties?.owner`. -/
def propsOwner (f : Feature) : Option String :=
  f.properties.bind Props.owner

/-- Accessor for `feature?.properties?.date`. -/
def propsDate (f : Feature) : Option String :=
  f.properties.bind Props.date

/-- JavaScript truthiness of an optional string: absent, `null` and the
empty string are falsy. -/
def truthy : Option String → Bool
  | some s => !(s == "")
  | none => false

/-- The per-feature predicate of `filteredLocations` (src/src/App.js
lines 32-37):

```js
if (!yearFilterEnabled) return true;
const dateStr = feature?.properties?.date;
const yearParsed = dateStr ? new Date(dateStr).getFullYear() : NaN;
return !isNaN(yearParsed) && yearParsed <= year;
```

`getYear` models `new Date(·).getFullYear()` with `none` for `NaN`;
a falsy `dateStr` (absent, null or `""`) short-circuits to `NaN`. -/
def featureIncluded (getYear : String → Option Int) (yearFilterEnabled : Bool)
    (year : Int) (f : Feature) : Bool :=
  if !yearFilterEnabled then true
  else
    match propsDate f with
    | none => false
    | some d =>
      if d == "" then false
      else
        match getYear d with
        | none => false
        | some y => decide (y ≤ year)

/-- Embeds `filteredLocations` (src/src/App.js lines 29-43): the store's
feature list filtered by `featureIncluded`.  (The surrounding
`FeatureCollection` wrapper carries no logic and is dropped.) -/
def filteredLocations (getYear : String → Option Int) (store : List Feature)
    (yearFilterEnabled : Bool) (year : Int) : List Feature :=
  store.filter (featureIncluded getYear yearFilterEnabled year)

/-- Models `String.prototype.toLowerCase` as a per-character lowercase
map (`Char.toLower` on each character). -/
def jsToLower (s : String) : String :=
  ⟨s.data.map Char.toLower⟩

/-- The match test of `handleSearch` (src/src/App.js line 80):
`feature.properties?.name?.toLowerCase() === searchQuery.toLowerCase()`.
An absent name yields `undefined`, which never `===`-equals a string. -/
def nameMatches (query : String) (f : Feature) : Bool :=
  match propsName f with
  | some n => jsToLower n == jsToLower query
  | none => false

/-- Embeds `handleSearch` (src/src/App.js lines 74-90), with the two mutable
variables of the `forEach` loop (`selectedBounds` via `setSelectedBounds`,
and `found`) threaded as explicit state:

```js
let found = false;
filteredLocations.features.forEach((feature) => {
  if (feature.properties?.name?.toLowerCase() === searchQuery.toLowerCase()) {
    const bounds = L.geoJSON(feature).getBounds();
    setSelectedBounds(bounds);
    found = true;
  }
});
if (!found) alert('Region not found!');
```

The first component of the result is the value of `selectedBounds` after
the event (React applies the last `setSelectedBounds` call of the
handler); the second is `found` (`false` triggers the
"Region not found!" alert). -/
def handleSearch (query : String) :
    List Feature → Option Bounds × Bool → Option Bounds × Bool
  | [], acc => acc
  | f :: rest, acc =>
      handleSearch query rest
        (if nameMatches query f then (some (boundsOf f), true) else acc)

/-- The truthy owner of a feature, as tested by `if (owner)` in
`uniqueOwners` (src/src/App.js lines 48-51): `none` when the owner is
absent or the empty string. -/
def ownerTruthy (f : Feature) : Option String :=
  match propsOwner f with
  | some o => if o == "" then none else some o
  | none => none

/-- Model of the plain JavaScript object `ownerCounts`: its value map
(`ownerCounts[o] || 0` semantics) together with its key enumeration
order (string keys enumerate in insertion order, as `Object.entries`
returns them). -/
structure OwnerTable where
  keys : List String
  count : String → Nat

/-- The empty `ownerCounts` object. -/
def emptyTable : OwnerTable :=
  { keys := [], count := fun _ => 0 }

/-- Embeds `ownerCounts[owner] = (ownerCounts[owner] || 0) + 1` (src/src/App.js
line 50): bumps the count at the key and records the key at the end of
the enumeration order if it is new. -/
def addOwner (t : OwnerTable) (o : String) : OwnerTable :=
  { keys := if o ∈ t.keys then t.keys else t.keys ++ [o],
    count := fun x => if x == o then t.count o + 1 else t.count x }

/-- The `ownerCounts` object after the `forEach` of `uniqueOwners`
(src/src/App.js lines 46-52): one `addOwner` per feature with a truthy
owner. -/
def ownerTable (filtered : List Feature) : OwnerTable :=
  filtered.foldl
    (fun t f =>
      match ownerTruthy f with
      | some o => addOwner t o
      | none => t)
    emptyTable

/-- Embeds `Object.entries(ownerCounts).map(([owner, count]) => ({owner, count}))`
(src/src/App.js lines 53-54): the keys in insertion order, each paired
with its count. -/
def ownerEntries (filtered : List Feature) : List (String × Nat) :=
  (ownerTable filtered).keys.map (fun o => (o, (ownerTable filtered).count o))

/-- Embeds `uniqueOwners` (src/src/App.js lines 45-56): the entries of
`ownerCounts` sorted by `(a, b) => a.owner.localeCompare(b.owner)`
(ascending owner text). -/
def uniqueOwners (filtered : List Feature) : List (String × Nat) :=
  (ownerEntries filtered).mergeSort (fun a b => decide (a.1 ≤ b.1))

/-- One entry of the farm list built by `uniqueFarms`:
`{ name, owner, area }`. -/
structure Farm where
  name : Option String
  owner : Option String
  area : Int
deriving DecidableEq, Repr

/-- The mapping step of `uniqueFarms` (src/src/App.js lines 59-65):
`area = bounds.getEast() - bounds.getWest()` — the east-minus-west
extent of the feature's bounding box, used as a size proxy. -/
def farmOf (f : Feature) : Farm :=
  { name := propsName f, owner := propsOwner f, area := f.east - f.west }

/-- The named farms (src/src/App.js lines 59-67): the mapped farm list
with the entries whose `name` is falsy dropped
(`const filtered = farms.filter((f) => f.name)`). -/
def namedFarms (filtered : List Feature) : List Farm :=
  (filtered.map farmOf).filter (fun fm => truthy fm.name)

/-- Embeds `uniqueFarms` (src/src/App.js lines 58-72): the named farms sorted
by `(a, b) => a.area - b.area` when `rankBySize` is true, else by
`(a, b) => a.name.localeCompare(b.name)` (every name in `namedFarms` is
a present, non-empty string, so the `getD ""` default is never the
compared value). -/
def uniqueFarms (filtered : List Feature) (rankBySize : Bool) : List Farm :=
  if rankBySize then
    (namedFarms filtered).mergeSort (fun a b => decide (a.area ≤ b.area))
  else
    (namedFarms filtered).mergeSort (fun a b => decide (a.name.getD "" ≤ b.name.getD ""))

/-- The style record produced by the `GeoJSON` `style` callback
(src/src/App.js lines 212-221); `fillOpacity` 0.5 is modelled as the
rational 1/2. -/
structure StyleRec where
  color : String
  weight : Nat
  fillColor : String
  fillOpacity : ℚ
deriving DecidableEq, Repr

/-- Embeds `feature.properties?.owner === highlightedOwner` (strict equality:
an absent owner is `undefined`, which `===`-equals neither `null` nor
any string). -/
def ownerEqJs (f : Feature) (hl : Option String) : Bool :=
  match propsOwner f, hl with
  | some a, some b => a == b
  | _, _ => false

/-- The per-feature style computation (src/src/App.js lines 212-221):

```js
const isHighlighted =
  highlightedOwner && feature.properties?.owner === highlightedOwner;
return {
  color: isHighlighted ? '#ff0000' : '#663300',
  weight: isHighlighted ? 3 : 2,
  fillColor: isHighlighted ? '#ffaaaa' : '#ffcc99',
  fillOpacity: 0.5,
};
``` -/
def styleFor (hl : Option String) (f : Feature) : StyleRec :=
  let isHighlighted := truthy hl && ownerEqJs f hl
  { color := if isHighlighted then "#ff0000" else "#663300",
    weight := if isHighlighted then 3 else 2,
    fillColor := if isHighlighted then "#ffaaaa" else "#ffcc99",
    fillOpacity := (1 : ℚ) / 2 }

/-- The `useState` fields of the `App` component (src/src/App.js
lines 20-27). -/
structure AppState where
  searchQuery : String
  selectedBounds : Option Bounds
  year : Int
  yearFilterEnabled : Bool
  showOwners : Bool
  showFarms : Bool
  highlightedOwner : Option String
  rankBySize : Bool
deriving DecidableEq, Repr

/-- The initial state of the component: the `useState` defaults
(src/src/App.js lines 20-27). -/
def initState : AppState :=
  { searchQuery := ""
    selectedBounds := none
    year := 1900
    yearFilterEnabled := false
    showOwners := false
    showFarms := false
    highlightedOwner := none
    rankBySize := true }

/-- The discrete user actions the component's event handlers respond
to: typing in the search box, submitting the search form, clicking the
year-filter accordion header, dragging the year slider, clicking the
owners accordion header, clicking the farms accordion header, clicking
an owner in the owner list, and toggling the rank-by-size checkbox. -/
inductive Action where
  | setQuery (q : String)
  | submitSearch
  | toggleYearFilter
  | setYear (y : Int)
  | toggleOwners
  | toggleFarms
  | selectOwner (o : String)
  | setRankBySize (b : Bool)
deriving DecidableEq, Repr

/-- The state transitions of the component, one per event handler in
src/src/App.js:
- `setQuery q`: the search input's `onChange` (line 111);
- `submitSearch`: `handleSearch` (lines 74-90), which recomputes
  `selectedBounds` from the current filtered collection and query;
- `toggleYearFilter`: the year accordion header's `onClick` (line 120);
- `setYear y`: the range input's `onChange` (line 133);
- `toggleOwners`: the owners accordion header's `onClick`
  (lines 143-146) — `setShowOwners(!showOwners); if (showOwners)
  setHighlightedOwner(null);`;
- `toggleFarms`: the farms accordion header's `onClick` (line 175);
- `selectOwner o`: clicking an owner entry (line 156); the entry only
  exists while the owner list is rendered, i.e. while `showOwners` is
  true;
- `setRankBySize b`: the checkbox `onChange` (line 185). -/
def reducer (getYear : String → Option Int) (store : List Feature)
    (a : Action) (s : AppState) : AppState :=
  match a with
  | .setQuery q => { s with searchQuery := q }
  | .submitSearch =>
      { s with selectedBounds :=
          (handleSearch s.searchQuery
            (filteredLocations getYear store s.yearFilterEnabled s.year)
            (s.selectedBounds, false)).1 }
  | .toggleYearFilter => { s with yearFilterEnabled := !s.yearFilterEnabled }
  | .setYear y => { s with year := y }
  | .toggleOwners =>
      { s with showOwners := !s.showOwners,
               highlightedOwner := if s.showOwners then none else s.highlightedOwner }
  | .toggleFarms => { s with showFarms := !s.showFarms }
  | .selectOwner o => if s.showOwners then { s with highlightedOwner := some o } else s
  | .setRankBySize b => { s with rankBySize := b }

/-- The states the component can actually be in: everything reachable
from the initial state by user actions. -/
inductive Reachable (getYear : String → Option Int) (store : List Feature) :
    AppState → Prop where
  | base : Reachable getYear store initState
  | next (a : Action) {s : AppState} :
      Reachable getYear store s → Reachable getYear store (reducer getYear store a s)

/-- Concrete store from the specification's test scenario (§8): three
records named Goede Hoop, Nieuwland, Oosthuizen with grant dates 1657,
1700 and 1750. -/
def demoStore : List Feature :=
  [ { properties := some ⟨some "Goede Hoop", some "Van Riebeeck", some "1657-04-02"⟩,
      west := 0, east := 1, south := 0, north := 1 },
    { properties := some ⟨some "Nieuwland", some "Van Riebeeck", some "1700-01-01"⟩,
      west := 2, east := 4, south := 0, north := 1 },
    { properties := some ⟨some "Oosthuizen", none, some "1750-06-01"⟩,
      west := 5, east := 9, south := 0, north := 1 } ]

/-- Concrete stand-in for `new Date(·).getFullYear()` on the demo dates. -/
def demoGetYear : String → Option Int := fun s =>
  if s == "1657-04-02" then some 1657
  else if s == "1700-01-01" then some 1700
  else if s == "1750-06-01" then some 1750
  else none

/-- A feature named "Goede Hoop", for the duplicate-name scenario. -/
def dupA : Feature :=
  { properties := some { name := some "Goede Hoop", owner := none, date := none },
    west := 0, east := 1, south := 0, north := 1 }

/-- A second feature whose name matches `dupA`'s up to case, with
different bounds. -/
def dupB : Feature :=
  { properties := some { name := some "goede hoop", owner := none, date := none },
    west := 10, east := 20, south := 0, north := 1 }

end MapApp

namespace Part000

open MapApp (Feature Bounds Props boundsOf propsName propsDate)

/-- The per-feature predicate of `filteredLocations` in
src/unnamed/part_000 (lines 28-33) — textually the same logic as in
src/src/App.js. -/
def featureIncluded (getYear : String → Option Int) (yearFilterEnabled : Bool)
    (year : Int) (f : Feature) : Bool :=
  if !yearFilterEnabled then true
  else
    match propsDate f with
    | none => false
    | some d =>
      if d == "" then false
      else
        match getYear d with
        | none => false
        | some y => decide (y ≤ year)

/-- Embeds `filteredLocations` of src/unnamed/part_000 (lines 25-39). -/
def filteredLocations (getYear : String → Option Int) (store : List Feature)
    (yearFilterEnabled : Bool) (year : Int) : List Feature :=
  store.filter (featureIncluded getYear yearFilterEnabled year)

/-- The match test of `handleSearch` in src/unnamed/part_000 (line 47). -/
def nameMatches (query : String) (f : Feature) : Bool :=
  match propsName f with
  | some n => MapApp.jsToLower n == MapApp.jsToLower query
  | none => false

/-- Embeds `handleSearch` of src/unnamed/part_000 (lines 41-57), embedded the
same way as the src/src/App.js version. -/
def handleSearch (query : String) :
    List Feature → Option Bounds × Bool → Option Bounds × Bool
  | [], acc => acc
  | f :: rest, acc =>
      handleSearch query rest
        (if nameMatches query f then (some (boundsOf f), true) else acc)

end Part000

namespace MapApp

theorem handleSearch_snd (query : String) :
    ∀ (l : List Feature) (acc : Option Bounds × Bool),
      (handleSearch query l acc).2 = (acc.2 || l.any (nameMatches query)) := by
  intro l
  induction l with
  | nil => intro acc; simp [handleSearch]
  | cons f rest ih =>
      intro acc
      by_cases h : nameMatches query f
      · simp [handleSearch, h, ih]
      · simp [handleSearch, h, ih]

theorem handleSearch_fst (query : String) :
    ∀ (l : List Feature) (b : Option Bounds) (fd : Bool),
      (handleSearch query l (b, fd)).1 =
        ((l.filter (nameMatches query)).getLast?).elim b (fun f => some (boundsOf f)) := by
  intro l
  induction l with
  | nil => intro b fd; simp [handleSearch]
  | cons f rest ih =>
      intro b fd
      by_cases h : nameMatches query f
      · rw [handleSearch]
        simp only [h, if_pos]
        rw [ih]
        cases hL : rest.filter (nameMatches query) with
        | nil => simp [hL, h]
        | cons g L =>
            have hsome : (g :: L).getLast?.isSome := by
              cases hg : (g :: L).getLast? with
              | none => exact absurd (List.getLast?_eq_none_iff.mp hg) (by simp)
              | some x => rfl
            cases hg : (g :: L).getLast? with
            | none => rw [hg] at hsome; simp at hsome
            | some x => simp [List.filter_cons, h, hL, hg]
      · rw [handleSearch]
        simp only [h, if_neg, Bool.false_eq_true, not_false_iff, ite_false]
        rw [ih]
        simp [List.filter_cons, h]

theorem featureIncluded_true_iff (getYear : String → Option Int) (year : Int) (f : Feature) :
    featureIncluded getYear true year f = true ↔
      ∃ d y, propsDate f = some d ∧ d ≠ "" ∧ getYear d = some y ∧ y ≤ year := by
  unfold featureIncluded
  cases hd : propsDate f with
  | none => simp
  | some d =>
      by_cases hde : d = ""
      · subst hde; simp
      · cases hy : getYear d with
        | none => simp [hde, hy]
        | some y => simp [hde, hy]

/-- Claim C1, as stated, is false on the code: searching a collection
that holds two records whose names match "goede hoop" case-insensitively
returns the bounds of the second (last) matching record, not the first,
and removing the later duplicate changes the returned bounds, so later
duplicates are not ignored. -/
theorem search_first_match_counterexample :
    (handleSearch "goede hoop" [dupA, dupB] (none, false)).1 = some (boundsOf dupB)
    ∧ boundsOf dupB ≠ boundsOf dupA
    ∧ (handleSearch "goede hoop" [dupA, dupB] (none, false)).1
        ≠ (handleSearch "goede hoop" [dupA] (none, false)).1 := by
  decide

/-- Claim C1 (amended): for every filtered collection and query, when
the records matching the query case-insensitively are non-empty, the
search returns the spatial bounds of the LAST matching record in store
order — each successive match overwrites the previously stored bounds. -/
theorem search_returns_last_match (query : String) (filtered : List Feature)
    (prev : Option Bounds) (f : Feature)
    (h : (filtered.filter (nameMatches query)).getLast? = some f) :
    (handleSearch query filtered (prev, false)).1 = some (boundsOf f) := by
  rw [handleSearch_fst query filtered prev false, h]
  rfl

/-- Witness for `search_returns_last_match` at the duplicate-name store. -/
theorem search_returns_last_match_witness :
    (handleSearch "goede hoop" [dupA, dupB] (none, false)).1 = some (boundsOf dupB) :=
  search_returns_last_match "goede hoop" [dupA, dupB] none dupB (by decide)

/-- Claim C2: with the year filter enabled, a record is in the filtered
collection iff it is in the store, its date string is present and
non-empty, that string parses to a calendar year (`getYear` returns
`some`), and the year is at most the threshold.  Records with a missing
or unparsable date are excluded; the filter is a total function, so no
error is raised on malformed dates. -/
theorem filter_enabled_year_membership (getYear : String → Option Int)
    (store : List Feature) (year : Int) (f : Feature) :
    f ∈ filteredLocations getYear store true year ↔
      f ∈ store ∧ ∃ d y, propsDate f = some d ∧ d ≠ "" ∧ getYear d = some y ∧ y ≤ year := by
  unfold filteredLocations
  rw [List.mem_filter, featureIncluded_true_iff]

/-- Witness for `filter_enabled_year_membership`: the Nieuwland record
(date 1700-01-01) is in the demo collection filtered at year 1700. -/
theorem filter_enabled_year_membership_witness :
    demoStore.get ⟨1, by decide⟩ ∈ filteredLocations demoGetYear demoStore true 1700 :=
  (filter_enabled_year_membership demoGetYear demoStore 1700 _).mpr
    ⟨by decide, "1700-01-01", 1700, by decide, by decide, by decide, by decide⟩

/-- Claim C3: with the year filter disabled, the filter returns every
record of the store unchanged and in the same order, regardless of the
records' dates (identity pass-through). -/
theorem filter_disabled_identity (getYear : String → Option Int)
    (store : List Feature) (year : Int) :
    filteredLocations getYear store false year = store := by
  unfold filteredLocations
  apply List.filter_eq_self.mpr
  intro a _
  simp [featureIncluded]

/-- Claim C4: the search succeeds iff some record of the CURRENTLY
FILTERED collection matches; matching is exact comparison of lowercased
name against lowercased query; and when every store record that matches
the query is excluded by the active filter, the search reports
NotFound (`found = false`, surfaced as the alert). -/
theorem search_only_filtered_case_insensitive (getYear : String → Option Int)
    (store : List Feature) (en : Bool) (year : Int) (query : String) (prev : Option Bounds) :
    ((handleSearch query (filteredLocations getYear store en year) (prev, false)).2 = true ↔
        ∃ f ∈ filteredLocations getYear store en year, nameMatches query f = true)
    ∧ (∀ f, nameMatches query f = true ↔
        ∃ n, propsName f = some n ∧ jsToLower n = jsToLower query)
    ∧ ((∀ f ∈ store, nameMatches query f = true → featureIncluded getYear en year f = false) →
        (handleSearch query (filteredLocations getYear store en year) (prev, false)).2 = false) := by
  refine ⟨?_, ?_, ?_⟩
  · rw [handleSearch_snd]
    simp [List.any_eq_true]
  · intro f
    unfold nameMatches
    cases hn : propsName f with
    | none => simp
    | some n => simp [beq_iff_eq]
  · intro h
    rw [handleSearch_snd]
    simp only [Bool.false_or]
    rw [List.any_eq_false]
    intro f hf
    rw [filteredLocations, List.mem_filter] at hf
    intro hm
    have := h f hf.1 hm
    rw [this] at hf
    exact absurd hf.2 (by simp)

/-- Witness for `search_only_filtered_case_insensitive`: the spec's §8
scenario — searching "Oosthuizen" with the year filter enabled at 1700
(which excludes that record) yields NotFound. -/
theorem search_only_filtered_case_insensitive_witness :
    (handleSearch "Oosthuizen" (filteredLocations demoGetYear demoStore true 1700)
        (none, false)).2 = false :=
  (search_only_filtered_case_insensitive demoGetYear demoStore true 1700 "Oosthuizen" none).2.2
    (by decide)

theorem handleSearch_fst_nomatch (query : String) (l : List Feature) (b : Option Bounds)
    (fd : Bool) (h : ∀ f ∈ l, nameMatches query f = false) :
    (handleSearch query l (b, fd)).1 = b := by
  rw [handleSearch_fst]
  have hnil : l.filter (nameMatches query) = [] := by
    rw [List.filter_eq_nil_iff]
    intro f hf
    simp [h f hf]
  rw [hnil]
  rfl

/-- Claim C7: `selectedBounds` changes only under a submitted search
that found a match in the current filtered collection; in particular a
failed search (no match — the handler only raises the notice) and every
filter-state change leave the previous `selectedBounds` untouched. -/
theorem selectedBounds_only_successful_search (getYear : String → Option Int)
    (store : List Feature) (s : AppState) :
    (∀ a : Action, (reducer getYear store a s).selectedBounds ≠ s.selectedBounds →
        a = Action.submitSearch ∧
          ∃ f ∈ filteredLocations getYear store s.yearFilterEnabled s.year,
            nameMatches s.searchQuery f = true)
    ∧ ((∀ f ∈ filteredLocations getYear store s.yearFilterEnabled s.year,
          nameMatches s.searchQuery f = false) →
        (reducer getYear store Action.submitSearch s).selectedBounds = s.selectedBounds) := by
  constructor
  · intro a h
    cases a with
    | setQuery q => exact absurd rfl h
    | submitSearch =>
        refine ⟨rfl, ?_⟩
        by_contra hno
        push_neg at hno
        apply h
        show (handleSearch s.searchQuery
            (filteredLocations getYear store s.yearFilterEnabled s.year)
            (s.selectedBounds, false)).1 = s.selectedBounds
        refine handleSearch_fst_nomatch _ _ _ _ ?_
        intro f hf
        cases hv : nameMatches s.searchQuery f with
        | false => rfl
        | true => exact absurd hv (hno f hf)
    | toggleYearFilter => exact absurd rfl h
    | setYear y => exact absurd rfl h
    | toggleOwners => exact absurd rfl h
    | toggleFarms => exact absurd rfl h
    | selectOwner o =>
        refine absurd ?_ h
        show (if s.showOwners then { s with highlightedOwner := some o } else s).selectedBounds
          = s.selectedBounds
        by_cases hs : s.showOwners <;> simp [hs]
    | setRankBySize b => exact absurd rfl h
  · intro h
    show (handleSearch s.searchQuery
        (filteredLocations getYear store s.yearFilterEnabled s.year)
        (s.selectedBounds, false)).1 = s.selectedBounds
    exact handleSearch_fst_nomatch _ _ _ _ h

/-- Witness for `selectedBounds_only_successful_search`: on the empty
store, a submitted search leaves `selectedBounds` unchanged. -/
theorem selectedBounds_only_successful_search_witness :
    (reducer demoGetYear [] Action.submitSearch initState).selectedBounds
      = initState.selectedBounds :=
  (selectedBounds_only_successful_search demoGetYear [] initState).2 (by decide)

theorem reachable_hidden_highlight (getYear : String → Option Int) (store : List Feature)
    (s : AppState) (h : Reachable getYear store s) :
    s.showOwners = false → s.highlightedOwner = none := by
  induction h with
  | base => intro _; rfl
  | next a h ih =>
      rename_i s'
      cases a with
      | setQuery q => exact ih
      | submitSearch => exact ih
      | toggleYearFilter => exact ih
      | setYear y => exact ih
      | toggleOwners =>
          intro hso
          show (if s'.showOwners then none else s'.highlightedOwner) = none
          have : (!s'.showOwners) = false := hso
          have hs : s'.showOwners = true := by
            cases hv : s'.showOwners
            · rw [hv] at this; exact absurd this (by simp)
            · rfl
          simp [hs]
      | toggleFarms => exact ih
      | selectOwner o =>
          intro hso
          by_cases hs : s'.showOwners
          · exfalso
            have : (reducer getYear store (Action.selectOwner o) s').showOwners = s'.showOwners := by
              simp [reducer, hs]
            rw [this, hs] at hso
            exact absurd hso (by simp)
          · have : reducer getYear store (Action.selectOwner o) s' = s' := by
              simp [reducer, hs]
            rw [this] at hso ⊢
            exact ih hso
      | setRankBySize b => exact ih

/-- Claim C8: in every reachable state, clicking the owners accordion
header when the list is shown hides it and clears `highlightedOwner`;
clicking it when the list is hidden shows it and leaves
`highlightedOwner` at `none` (no previous highlight is restored, since
hiding the list already cleared it). -/
theorem toggleOwners_clears_highlight (getYear : String → Option Int)
    (store : List Feature) (s : AppState) (h : Reachable getYear store s) :
    (reducer getYear store Action.toggleOwners s).highlightedOwner = none
    ∧ (reducer getYear store Action.toggleOwners s).showOwners = !s.showOwners := by
  constructor
  · cases hs : s.showOwners
    · have hnone := reachable_hidden_highlight getYear store s h hs
      show (if s.showOwners then none else s.highlightedOwner) = none
      simp [hs, hnone]
    · show (if s.showOwners then none else s.highlightedOwner) = none
      simp [hs]
  · rfl

/-- Witness for `toggleOwners_clears_highlight` at the initial state. -/
theorem toggleOwners_clears_highlight_witness :
    (reducer demoGetYear demoStore Action.toggleOwners initState).highlightedOwner = none
    ∧ (reducer demoGetYear demoStore Action.toggleOwners initState).showOwners
        = !initState.showOwners :=
  toggleOwners_clears_highlight demoGetYear demoStore initState Reachable.base

/-- Claim C9: the per-feature style is a function of whether the
feature's owner `===`-equals `highlightedOwner` alone — two features
agreeing on that predicate receive identical style records (stroke
color, stroke weight, fill color, fill opacity), whatever their other
fields. -/
theorem style_depends_only_on_owner_highlight (hl : Option String) (f g : Feature)
    (h : ownerEqJs f hl = ownerEqJs g hl) :
    styleFor hl f = styleFor hl g := by
  unfold styleFor
  rw [h]

/-- Witness for `style_depends_only_on_owner_highlight`: two features,
neither owned by the highlighted owner, get the same style. -/
theorem style_depends_only_on_owner_highlight_witness :
    styleFor (some "Van Riebeeck") dupA = styleFor (some "Van Riebeeck") dupB :=
  style_depends_only_on_owner_highlight (some "Van Riebeeck") dupA dupB (by decide)

/-- Claim C10: the filter derivation and the search logic of
src/src/App.js and src/unnamed/part_000 are extensionally equal: on
every store, filter state, query and accumulator they produce the same
filtered collection, the same match classification, and the same search
outcome. -/
theorem filter_search_refinement :
    (∀ (getYear : String → Option Int) (store : List Feature) (en : Bool) (year : Int),
        Part000.filteredLocations getYear store en year
          = filteredLocations getYear store en year)
    ∧ (∀ (query : String) (f : Feature),
        Part000.nameMatches query f = nameMatches query f)
    ∧ (∀ (query : String) (l : List Feature) (acc : Option Bounds × Bool),
        Part000.handleSearch query l acc = handleSearch query l acc) := by
  refine ⟨fun g st en y => rfl, fun q f => rfl, fun q l => ?_⟩
  induction l with
  | nil => intro acc; rfl
  | cons f rest ih =>
      intro acc
      rw [Part000.handleSearch, handleSearch]
      exact ih _

/-- Claim C6: the farm ranking contains no record with a falsy name;
with `rankBySize` true its output is non-decreasing in the size proxy
(east-minus-west extent of the bounding box), and with `rankBySize`
false it is non-decreasing in name. -/
theorem uniqueFarms_spec (filtered : List Feature) (rankBySize : Bool) :
    (∀ fm ∈ uniqueFarms filtered rankBySize, truthy fm.name = true)
    ∧ (rankBySize = true →
        List.Pairwise (fun a b : Farm => a.area ≤ b.area) (uniqueFarms filtered rankBySize))
    ∧ (rankBySize = false →
        List.Pairwise (fun a b : Farm => a.name.getD "" ≤ b.name.getD "")
          (uniqueFarms filtered rankBySize)) := by
  refine ⟨?_, ?_, ?_⟩
  · intro fm hm
    unfold uniqueFarms at hm
    by_cases hr : rankBySize
    · rw [if_pos hr, List.mem_mergeSort] at hm
      have := (List.mem_filter.mp hm).2
      simpa using this
    · rw [if_neg hr, List.mem_mergeSort] at hm
      have := (List.mem_filter.mp hm).2
      simpa using this
  · intro hr
    subst hr
    unfold uniqueFarms
    rw [if_pos rfl]
    have h := @List.sorted_mergeSort Farm
      (fun a b : Farm => decide (a.area ≤ b.area))
      (fun a b c hab hbc => by
        simp only [decide_eq_true_eq] at hab hbc ⊢
        exact le_trans hab hbc)
      (fun a b => by
        simp only [Bool.or_eq_true, decide_eq_true_eq]
        exact le_total a.area b.area)
      (namedFarms filtered)
    exact h.imp (fun hab => by simpa using hab)
  · intro hr
    subst hr
    unfold uniqueFarms
    rw [if_neg (by simp)]
    have h := @List.sorted_mergeSort Farm
      (fun a b : Farm => decide (a.name.getD "" ≤ b.name.getD ""))
      (fun a b c hab hbc => by
        simp only [decide_eq_true_eq] at hab hbc ⊢
        exact le_trans hab hbc)
      (fun a b => by
        simp only [Bool.or_eq_true, decide_eq_true_eq]
        exact le_total (a.name.getD "") (b.name.getD ""))
      (namedFarms filtered)
    exact h.imp (fun hab => by simpa using hab)

/-- Witness for `uniqueFarms_spec`: the demo store's ranking by size is
non-decreasing in the size proxy. -/
theorem uniqueFarms_spec_witness :
    List.Pairwise (fun a b : Farm => a.area ≤ b.area) (uniqueFarms demoStore true) :=
  (uniqueFarms_spec demoStore true).2.1 rfl

theorem ownerTable_eq_fold : ∀ (l : List Feature) (t : OwnerTable),
    (l.foldl
      (fun t f =>
        match ownerTruthy f with
        | some o => addOwner t o
        | none => t)
      t)
      = (l.filterMap ownerTruthy).foldl addOwner t := by
  intro l
  induction l with
  | nil => intro t; rfl
  | cons f rest ih =>
      intro t
      rw [List.foldl_cons, List.filterMap_cons]
      cases h : ownerTruthy f with
      | none => simp only [h]; exact ih t
      | some o => simp only [h, List.foldl_cons]; exact ih (addOwner t o)

theorem foldl_addOwner_count : ∀ (l : List String) (t : OwnerTable) (x : String),
    (l.foldl addOwner t).count x = t.count x + l.count x := by
  intro l
  induction l with
  | nil => intro t x; simp
  | cons o rest ih =>
      intro t x
      rw [List.foldl_cons, ih, List.count_cons]
      by_cases hx : x = o
      · subst hx
        simp [addOwner]
        omega
      · have hb : (x == o) = false := beq_eq_false_iff_ne.mpr hx
        have hx' : ¬o = x := fun h => hx h.symm
        simp [addOwner, hb, hx, hx']

theorem foldl_addOwner_keys_mem : ∀ (l : List String) (t : OwnerTable) (x : String),
    x ∈ (l.foldl addOwner t).keys ↔ x ∈ t.keys ∨ x ∈ l := by
  intro l
  induction l with
  | nil => intro t x; simp
  | cons o rest ih =>
      intro t x
      rw [List.foldl_cons, ih, List.mem_cons]
      by_cases ho : o ∈ t.keys
      · simp only [addOwner, if_pos ho]
        constructor
        · rintro (h | h)
          · exact Or.inl h
          · exact Or.inr (Or.inr h)
        · rintro (h | h | h)
          · exact Or.inl h
          · exact Or.inl (h ▸ ho)
          · exact Or.inr h
      · simp only [addOwner, if_neg ho, List.mem_append, List.mem_singleton]
        tauto

theorem foldl_addOwner_keys_nodup : ∀ (l : List String) (t : OwnerTable),
    t.keys.Nodup → (l.foldl addOwner t).keys.Nodup := by
  intro l
  induction l with
  | nil => intro t h; exact h
  | cons o rest ih =>
      intro t h
      rw [List.foldl_cons]
      apply ih
      by_cases ho : o ∈ t.keys
      · simpa [addOwner, ho] using h
      · simp [addOwner, ho, List.nodup_append, h]

theorem ownerTruthy_eq_some (f : Feature) (o : String) :
    ownerTruthy f = some o ↔ propsOwner f = some o ∧ o ≠ "" := by
  unfold ownerTruthy
  cases hp : propsOwner f with
  | none => simp
  | some s =>
      by_cases hs : s = ""
      · subst hs
        constructor
        · intro h
          exact absurd h (by simp)
        · rintro ⟨ho, hne⟩
          exact absurd (Option.some.inj ho).symm hne
      · have hb : (s == "") = false := beq_eq_false_iff_ne.mpr hs
        simp only [hb, Bool.false_eq_true, if_false, Option.some.injEq]
        exact ⟨fun h => ⟨h, h ▸ hs⟩, fun h => h.1⟩

theorem isSome_ownerTruthy (f : Feature) :
    (ownerTruthy f).isSome = truthy (propsOwner f) := by
  unfold ownerTruthy truthy
  cases hp : propsOwner f with
  | none => rfl
  | some s =>
      by_cases hs : s = ""
      · subst hs; simp
      · have hb : (s == "") = false := beq_eq_false_iff_ne.mpr hs
        simp [hb]

theorem count_filterMap_ownerTruthy : ∀ (l : List Feature) (o : String), o ≠ "" →
    (l.filterMap ownerTruthy).count o = l.countP (fun f => propsOwner f == some o) := by
  intro l
  induction l with
  | nil => intro o _; simp
  | cons f rest ih =>
      intro o ho
      rw [List.filterMap_cons, List.countP_cons]
      cases hp : propsOwner f with
      | none =>
          have h1 : ownerTruthy f = none := by simp [ownerTruthy, hp]
          simp [h1, hp, ih o ho]
      | some s =>
          by_cases hs : s = ""
          · subst hs
            have h1 : ownerTruthy f = none := by simp [ownerTruthy, hp]
            have h2 : ((some "" : Option String) == some o) = false :=
              beq_eq_false_iff_ne.mpr (fun h => ho (Option.some.inj h).symm)
            rw [h1, h2]
            simp [ih o ho]
          · have h1 : ownerTruthy f = some s := by
              have hb : (s == "") = false := beq_eq_false_iff_ne.mpr hs
              simp [ownerTruthy, hp, hb]
            rw [h1, List.count_cons, ih o ho]
            by_cases hso : s = o
            · subst hso
              simp
            · have hb1 : (o == s) = false := beq_eq_false_iff_ne.mpr (fun h => hso h.symm)
              have hb2 : ((some s : Option String) == some o) = false :=
                beq_eq_false_iff_ne.mpr (fun h => hso (Option.some.inj h))
              simp [hb1, hb2, hso]

/-- Claim C5: the owner aggregation is sorted ascending by owner text;
the sum of its counts is the number of records in the filtered
collection with a truthy owner; every entry's owner is the exact
(non-empty) owner text of some filtered record and its count is the
number of filtered records with exactly that owner; and every truthy
owner occurring in the filtered collection has an entry. -/
theorem uniqueOwners_spec (filtered : List Feature) :
    List.Pairwise (fun a b : String × Nat => a.1 ≤ b.1) (uniqueOwners filtered)
    ∧ ((uniqueOwners filtered).map Prod.snd).sum
        = filtered.countP (fun f => truthy (propsOwner f))
    ∧ (∀ p ∈ uniqueOwners filtered,
        p.1 ≠ "" ∧ (∃ f ∈ filtered, propsOwner f = some p.1)
          ∧ p.2 = filtered.countP (fun f => propsOwner f == some p.1))
    ∧ (∀ o, o ≠ "" → (∃ f ∈ filtered, propsOwner f = some o) →
        ∃ c, (o, c) ∈ uniqueOwners filtered) := by
  have hT : ownerTable filtered
      = (filtered.filterMap ownerTruthy).foldl addOwner emptyTable :=
    ownerTable_eq_fold filtered emptyTable
  have hcount : ∀ x, (ownerTable filtered).count x = (filtered.filterMap ownerTruthy).count x := by
    intro x
    rw [hT, foldl_addOwner_count]
    simp [emptyTable]
  have hkeys : ∀ x, x ∈ (ownerTable filtered).keys ↔ x ∈ filtered.filterMap ownerTruthy := by
    intro x
    rw [hT, foldl_addOwner_keys_mem]
    simp [emptyTable]
  have hnodup : (ownerTable filtered).keys.Nodup := by
    rw [hT]
    exact foldl_addOwner_keys_nodup _ _ (by simp [emptyTable])
  refine ⟨?_, ?_, ?_, ?_⟩
  · unfold uniqueOwners
    have h := @List.sorted_mergeSort (String × Nat)
      (fun a b : String × Nat => decide (a.1 ≤ b.1))
      (fun a b c hab hbc => by
        simp only [decide_eq_true_eq] at hab hbc ⊢
        exact le_trans hab hbc)
      (fun a b => by
        simp only [Bool.or_eq_true, decide_eq_true_eq]
        exact le_total a.1 b.1)
      (ownerEntries filtered)
    exact h.imp (fun hab => by simpa using hab)
  · have hperm : List.Perm (uniqueOwners filtered) (ownerEntries filtered) :=
      List.mergeSort_perm _ _
    rw [(hperm.map Prod.snd).sum_eq]
    unfold ownerEntries
    rw [List.map_map]
    have hmapc :
        ((ownerTable filtered).keys.map (Prod.snd ∘ fun o => (o, (ownerTable filtered).count o)))
          = (ownerTable filtered).keys.map (fun o => (filtered.filterMap ownerTruthy).count o) := by
      apply List.map_congr_left
      intro o _
      exact hcount o
    rw [hmapc]
    have hperm2 :
        List.Perm (ownerTable filtered).keys (filtered.filterMap ownerTruthy).dedup :=
      (List.perm_ext_iff_of_nodup hnodup (List.nodup_dedup _)).mpr
        (fun x => by rw [hkeys, List.mem_dedup])
    rw [(hperm2.map (fun o => (filtered.filterMap ownerTruthy).count o)).sum_eq]
    rw [List.sum_map_count_dedup_eq_length]
    rw [List.length_filterMap_eq_countP]
    apply List.countP_congr
    intro f _
    rw [isSome_ownerTruthy]
  · intro p hp
    unfold uniqueOwners at hp
    rw [List.mem_mergeSort] at hp
    unfold ownerEntries at hp
    rw [List.mem_map] at hp
    obtain ⟨o, ho, rfl⟩ := hp
    have homem : o ∈ filtered.filterMap ownerTruthy := (hkeys o).mp ho
    rw [List.mem_filterMap] at homem
    obtain ⟨f, hf, hof⟩ := homem
    rw [ownerTruthy_eq_some] at hof
    refine ⟨hof.2, ⟨f, hf, hof.1⟩, ?_⟩
    show (ownerTable filtered).count o = _
    rw [hcount o, count_filterMap_ownerTruthy filtered o hof.2]
  · intro o ho hex
    obtain ⟨f, hf, hof⟩ := hex
    have homem : o ∈ filtered.filterMap ownerTruthy := by
      rw [List.mem_filterMap]
      exact ⟨f, hf, (ownerTruthy_eq_some f o).mpr ⟨hof, ho⟩⟩
    refine ⟨(ownerTable filtered).count o, ?_⟩
    unfold uniqueOwners
    rw [List.mem_mergeSort]
    unfold ownerEntries
    rw [List.mem_map]
    exact ⟨o, (hkeys o).mpr homem, rfl⟩

/-- Witness for `uniqueOwners_spec`: in the demo collection filtered at
year 1700, the owner "Van Riebeeck" has an aggregation entry. -/
theorem uniqueOwners_spec_witness :
    ∃ c, ("Van Riebeeck", c) ∈ uniqueOwners (filteredLocations demoGetYear demoStore true 1700) :=
  (uniqueOwners_spec (filteredLocations demoGetYear demoStore true 1700)).2.2.2
    "Van Riebeeck" (by decide)
    ⟨demoStore.get ⟨0, by decide⟩, by decide, by decide⟩

end MapApp
